import Mathlib

/-!
Verification of the monitoring engine of `huduma_watch.py` (Kenya Service
Status bot): the three-state classifier, the bounded per-service history
deque, the edge-triggered alert decision, metrics export and the JSON
persistence boundary, shallowly embedded as executable Lean definitions.

Modelling conventions:
* Python `Optional[int]` becomes `Option Int`; an absent probe result is
  `none`.
* `time.time()` returns a float that is only ever passed through (never
  computed on), so timestamps are modelled by an opaque `Timestamp := Int`.
* A `collections.deque(maxlen=cap)` is modelled as a `List` together with
  the append operation `dequeAppend`, which keeps the last `cap` elements;
  for lists of length ≤ cap (the only states a real deque can be in) this
  is exactly deque append semantics.
* The two Prometheus gauges are modelled per label as `Option Int`: `none`
  means the labelled child was never created (the metric is absent from the
  exposition); once set it stays present.
* `compose_message` returns `Option String`: `none` marks the case where
  the Python code would raise (`latency/1000` with `latency = None`).
  The `%b %d %H:%M` wall-clock string is passed in as an opaque `now`
  argument, and the `:.1f` float formatting of `latency/1000` is rendered
  with integer division (no claim inspects the digits).
-/

namespace HudumaWatch

/-- The three classification states returned by `classify`. -/
inductive Status where
  | OK
  | SLOW
  | DOWN
  deriving DecidableEq, Repr, Fintype

/-- Configuration constant `TIMEOUT_SECONDS = 10`. -/
def TIMEOUT_SECONDS : Int := 10

/-- Configuration constant `SLOW_THRESHOLD_MS = 4_000`. -/
def SLOW_THRESHOLD_MS : Int := 4000

/-- Configuration constant `HISTORY_ENTRIES = 288` (deque capacity). -/
def HISTORY_ENTRIES : Nat := 288

/-- Configuration constant `CHECK_INTERVAL_MINUTES = 5`. -/
def CHECK_INTERVAL_MINUTES : Int := 5

/-- The static `SITES` mapping (service name, url), in source order. -/
def SITES : List (String × String) :=
  [("KRA iTax", "https://itax.kra.go.ke"),
   ("eCitizen", "https://accounts.ecitizen.go.ke"),
   ("NTSA TIMS", "https://timsvirl.ntsa.go.ke"),
   ("HELB", "https://studentportal.helb.co.ke"),
   ("KUCCPS", "https://students.kuccps.net")]

/-- Opaque model of the `time.time()` float timestamp: it is stored and
read back but never computed on. -/
abbrev Timestamp := Int

/-- One stored history entry `(timestamp, code, latency)` as appended on
line 124: code `0` encodes an absent status code, latency `-1` encodes an
absent latency. -/
abbrev Entry := Timestamp × Int × Int

/--
Function `classify` (lines 84-89):

    def classify(code, latency):
        if code is None or latency is None:
            return "DOWN"
        if code >= 500 or latency > SLOW_THRESHOLD_MS:
            return "SLOW"
        return "OK"
-/
def classify (code : Option Int) (latency : Option Int) : Status :=
  match code, latency with
  | none, _ => Status.DOWN
  | _, none => Status.DOWN
  | some c, some l =>
    if c ≥ 500 ∨ l > SLOW_THRESHOLD_MS then Status.SLOW else Status.OK

/-- Python truthiness of an `Optional[int]` expression `x or d`: `None`
and `0` are falsy and give `d`, any other integer gives itself. This is
the encoding step in `history[name].append((time.time(), code or 0,
latency or -1))` on line 124. -/
def pyOrInt (x : Option Int) (d : Int) : Int :=
  match x with
  | none => d
  | some v => if v = 0 then d else v

/-- Append on a `deque(maxlen=cap)`: the result keeps the last `cap`
elements of `xs ++ [x]`. For `xs.length ≤ cap` (every reachable deque
state) this appends, evicting the single oldest element when full. -/
def dequeAppend (cap : Nat) (xs : List α) (x : α) : List α :=
  (xs ++ [x]).drop ((xs ++ [x]).length - cap)

/--
Function `_last_status` (lines 91-95): decode the newest entry of a deque back to
an optional `(code, latency)` pair; `0` decodes to absent code and `-1`
to absent latency; an empty deque gives `(None, None)`.
-/
def lastStatus (entries : List Entry) : Option Int × Option Int :=
  match entries.getLast? with
  | none => (none, none)
  | some (_, code, lat) =>
    ((if code = 0 then none else some code),
     (if lat = -1 then none else some lat))

/--
Function `compose_message` (lines 97-106). The `now` wall-clock string is an
argument (the source reads the clock itself). The SLOW branch evaluates
`latency/1000`, which raises in Python when `latency` is `None`; that
partiality is modelled by returning `none` there. An absent `code` would
merely print as the string `None` (f-string), so it does not make the
function partial.
-/
def compose_message (now : String) (service : String) (state : Status)
    (code : Option Int) (latency : Option Int) : Option String :=
  match state with
  | Status.DOWN =>
    some (service ++ " seems DOWN (timeout >" ++ toString TIMEOUT_SECONDS
      ++ "s) - " ++ now)
  | Status.SLOW =>
    match latency with
    | none => none
    | some l =>
      some (service ++ " is *slow* (" ++ toString (l / 1000) ++ "s, HTTP "
        ++ (match code with | none => "None" | some c => toString c)
        ++ ") - " ++ now ++ "\nHang tight or try off-peak")
  | Status.OK => some ""

/-- The alert condition on line 130:
`state in {"DOWN", "SLOW"} and state != prev_state`. -/
def alertFires (prevState : Status) (state : Status) : Bool :=
  decide ((state = Status.DOWN ∨ state = Status.SLOW) ∧ state ≠ prevState)

/-- The global `history` dict, `name ↦ deque of entries`, modelled as an
insertion-ordered key list plus a lookup function. `val` is meaningful on
`keys`; reads of absent keys go through `HistMap.get` which, like
`dict.get`, yields `none`. -/
structure HistMap where
  keys : List String
  val : String → List Entry

/-- Dict lookup `history.get(name)` (returns `None` when absent). -/
def HistMap.get (h : HistMap) (n : String) : Option (List Entry) :=
  if n ∈ h.keys then some (h.val n) else none

/-- Dict update `history[name] = v` (a new key goes to the end, matching
insertion order). -/
def HistMap.set (h : HistMap) (n : String) (v : List Entry) : HistMap :=
  ⟨if n ∈ h.keys then h.keys else h.keys ++ [n],
   fun m => if m = n then v else h.val m⟩

/-- The startup value of `history` (lines 50-52): one empty deque per
configured site. -/
def initHistory : HistMap :=
  ⟨SITES.map Prod.fst, fun _ => []⟩

/-- The two labelled Prometheus gauges. Per service name, `none` means
the labelled child was never created (`.labels(...)` never called), so
the series is absent from the `/metrics` exposition; `some v` means it is
exported with value `v`. -/
structure Metrics where
  up : String → Option Int
  latency : String → Option Int

/-- Gauges at process start: no labelled children exist yet. -/
def initMetrics : Metrics :=
  ⟨fun _ => none, fun _ => none⟩

/-- The mutable state touched by one scheduler tick. -/
structure SysState where
  history : HistMap
  metrics : Metrics

/--
The per-endpoint body of `check_services` (lines 117-131), with the probe
result `(code, latency)` and the clock readings passed in. Returns the
updated state and the alert action: `none` when line 130's condition is
false, `some m` when `send_alert(compose_message(...))` runs with `m` the
composed message (`m = none` marking the latency-division error case).
-/
def serviceTick (ts : Timestamp) (now : String) (name : String)
    (code : Option Int) (latency : Option Int) (st : SysState) :
    SysState × Option (Option String) :=
  let entries := st.history.val name
  let prev := lastStatus entries
  let prevState := classify prev.1 prev.2
  let state := classify code latency
  let entries' := dequeAppend HISTORY_ENTRIES entries
    (ts, pyOrInt code 0, pyOrInt latency (-1))
  let hist' := st.history.set name entries'
  let up' : String → Option Int := fun n =>
    if n = name then some (if state = Status.OK then 1 else 0)
    else st.metrics.up n
  let lat' : String → Option Int := fun n =>
    if n = name then
      match latency with
      | some l => some l
      | none => st.metrics.latency n
    else st.metrics.latency n
  let alert : Option (Option String) :=
    if alertFires prevState state then
      some (compose_message now name state code latency)
    else none
  (⟨hist', ⟨up', lat'⟩⟩, alert)

/-- The `for name, url in SITES.items()` loop of `check_services`,
generalised over the site list. `meas` gives each url's `measure` result
for this tick. Accumulates the `(name, message)` alerts actually sent. -/
def checkStep (ts : Timestamp) (now : String)
    (meas : String → Option Int × Option Int)
    (acc : SysState × List (String × Option String)) (p : String × String) :
    SysState × List (String × Option String) :=
  let r := meas p.2
  let out := serviceTick ts now p.1 r.1 r.2 acc.1
  (out.1,
   match out.2 with
   | some m => acc.2 ++ [(p.1, m)]
   | none => acc.2)

/-- Fold of `checkStep` over a site list, starting with no alerts sent. -/
def checkLoop (sites : List (String × String)) (ts : Timestamp)
    (now : String) (meas : String → Option Int × Option Int)
    (st : SysState) : SysState × List (String × Option String) :=
  sites.foldl (checkStep ts now meas) (st, [])

/-- Function `check_services` (lines 116-131): one tick over the configured
`SITES`. -/
def check_services (ts : Timestamp) (now : String)
    (meas : String → Option Int × Option Int) (st : SysState) :
    SysState × List (String × Option String) :=
  checkLoop SITES ts now meas st

/-- Python slice `l[-n:]`, for `n > 0`: the last `n` elements. -/
def takeLast (n : Nat) (l : List α) : List α :=
  l.drop (l.length - n)

/-- The persisted JSON value: an object keyed by endpoint name, value an
array of `(timestamp, code, latency)` triples. JSON round-trips these
numbers exactly, so the file is modelled by the value itself. -/
abbrev FileData := List (String × List Entry)

/-- Function `save_history` (lines 148-154): `{n: list(d) for n, d in
history.items()}`. -/
def save_history (h : HistMap) : FileData :=
  h.keys.map (fun n => (n, h.val n))

/-- Expression `history.get(name) or deque(maxlen=HISTORY_ENTRIES)` on line 140: a
missing key gives `None` (falsy) and an empty deque is also falsy, so
both give a fresh empty deque; value-wise the result is the stored list
when non-empty and `[]` otherwise. -/
def getOrFreshDeque (o : Option (List Entry)) : List Entry :=
  match o with
  | none => []
  | some d => if d = [] then [] else d

/--
Function `load_history` (lines 133-146), from the parsed file value: for each
`(name, entries)` in the file, append the last `HISTORY_ENTRIES` entries
onto `history.get(name) or` a fresh deque, then store it under `name`
(inserting names that were not configured).
-/
def loadStep (acc : HistMap) (p : String × List Entry) : HistMap :=
  let dq := getOrFreshDeque (acc.get p.1)
  let dq' := (takeLast HISTORY_ENTRIES p.2).foldl
    (dequeAppend HISTORY_ENTRIES) dq
  acc.set p.1 dq'

/-- Fold of `loadStep` over the parsed file, starting from the current
`history` (the startup state when called from `__main__`). -/
def load_history (data : FileData) (h : HistMap) : HistMap :=
  data.foldl loadStep h

/-- One row of the status page table. -/
structure DashRow where
  name : String
  code : Option Int
  latency : Option Int
  state : Status
  deriving DecidableEq, Repr

/-- Route `dashboard` (lines 195-210): one row per entry of `history`, from
`_last_status` and `classify`, sorted by service name. -/
def dashboard (h : HistMap) : List DashRow :=
  (h.keys.map (fun n =>
    let s := lastStatus (h.val n)
    ⟨n, s.1, s.2, classify s.1 s.2⟩)).mergeSort
    (fun a b => decide (a.name ≤ b.name))

/-- Feeding a sequence of current classifications to the alert condition,
each tick's previous classification being the prior tick's current one
(`p0` is the previous classification of the first tick): the list of
fired flags, one per tick. -/
def runFires (p0 : Status) (cs : List Status) : List Bool :=
  (cs.foldl (fun (acc : Status × List Bool) c =>
    (c, acc.2 ++ [alertFires acc.1 c])) (p0, [])).2

/-- A concrete sequence of `HISTORY_ENTRIES + 1` samples with distinct
timestamps. -/
def overfullSamples : List Entry :=
  List.map (fun (i : Nat) => ((i : Int), 200, 100))
    (List.range (HISTORY_ENTRIES + 1))

/-! Section: Helper lemmas about `takeLast` and `dequeAppend` -/

theorem takeLast_eq_self {l : List α} {n : Nat} (h : l.length ≤ n) :
    takeLast n l = l := by
  unfold takeLast
  have : l.length - n = 0 := by omega
  simp [this]

theorem length_takeLast (n : Nat) (l : List α) :
    (takeLast n l).length = min l.length n := by
  unfold takeLast
  simp [List.length_drop]
  omega

theorem dequeAppend_eq_takeLast (cap : Nat) (xs : List α) (x : α) :
    dequeAppend cap xs x = takeLast cap (xs ++ [x]) := rfl

theorem takeLast_takeLast_append (cap : Nat) (l : List α) (x : α) :
    takeLast cap (takeLast cap l ++ [x]) = takeLast cap (l ++ [x]) := by
  unfold takeLast
  rcases Nat.eq_zero_or_pos cap with hc0 | hcpos
  · subst hc0
    simp [List.drop_length]
  rcases le_or_lt l.length cap with hle | hlt
  · have h0 : l.length - cap = 0 := by omega
    simp [h0]
  · have hlen : (l.drop (l.length - cap)).length = cap := by
      simp [List.length_drop]; omega
    have hlen1 : (l.drop (l.length - cap) ++ [x]).length = cap + 1 := by
      simp [hlen]
    have hlen2 : (l ++ [x]).length = l.length + 1 := by simp
    rw [hlen1, hlen2]
    have hcap1 : cap + 1 - cap = 1 := by omega
    rw [hcap1]
    have h1le : 1 ≤ (l.drop (l.length - cap)).length := by omega
    rw [List.drop_append_of_le_length h1le, List.drop_drop]
    have hl1 : l.length + 1 - cap = (l.length - cap + 1) := by omega
    rw [hl1]
    have hle2 : l.length - cap + 1 ≤ l.length := by omega
    rw [List.drop_append_of_le_length hle2]

theorem foldl_dequeAppend_takeLast (cap : Nat) :
    ∀ (es l : List α),
      es.foldl (dequeAppend cap) (takeLast cap l) = takeLast cap (l ++ es) := by
  intro es
  induction es with
  | nil => intro l; simp
  | cons e rest ih =>
    intro l
    have step : dequeAppend cap (takeLast cap l) e = takeLast cap (l ++ [e]) := by
      rw [dequeAppend_eq_takeLast, takeLast_takeLast_append]
    calc (e :: rest).foldl (dequeAppend cap) (takeLast cap l)
        = rest.foldl (dequeAppend cap) (takeLast cap (l ++ [e])) := by
          simp [List.foldl_cons, step]
      _ = takeLast cap ((l ++ [e]) ++ rest) := ih (l ++ [e])
      _ = takeLast cap (l ++ e :: rest) := by simp

theorem foldl_dequeAppend_of_le (cap : Nat) (es xs : List α)
    (h : xs.length ≤ cap) :
    es.foldl (dequeAppend cap) xs = takeLast cap (xs ++ es) := by
  have hx : takeLast cap xs = xs := takeLast_eq_self h
  calc es.foldl (dequeAppend cap) xs
      = es.foldl (dequeAppend cap) (takeLast cap xs) := by rw [hx]
    _ = takeLast cap (xs ++ es) := foldl_dequeAppend_takeLast cap es xs

theorem getLast?_dequeAppend (cap : Nat) (hc : 1 ≤ cap) (xs : List α)
    (x : α) : (dequeAppend cap xs x).getLast? = some x := by
  unfold dequeAppend
  have hk : (xs ++ [x]).length - cap ≤ xs.length := by
    simp
    omega
  rw [List.drop_append_of_le_length hk]
  exact List.getLast?_concat _

/-! Section: Claim theorems: classifier, history bound, alert decider -/

/-- C1: `classify(C, L)` is `DOWN` iff `C` or `L` is absent, `SLOW` iff
both are present and (`C ≥ 500` or `L > 4000`), and `OK` otherwise; in
particular `classify(503, 100) = SLOW`, `classify(200, 5000) = SLOW`,
`classify(200, 100) = OK` and `classify(absent, absent) = DOWN`. -/
theorem classify_spec :
    (∀ c l : Option Int,
      (classify c l = Status.DOWN ↔ (c = none ∨ l = none))
      ∧ (classify c l = Status.SLOW ↔
          (∃ cv lv : Int, c = some cv ∧ l = some lv ∧
            (cv ≥ 500 ∨ lv > 4000)))
      ∧ (classify c l = Status.OK ↔
          (∃ cv lv : Int, c = some cv ∧ l = some lv ∧
            cv < 500 ∧ lv ≤ 4000)))
    ∧ classify (some 503) (some 100) = Status.SLOW
    ∧ classify (some 200) (some 5000) = Status.SLOW
    ∧ classify (some 200) (some 100) = Status.OK
    ∧ classify none none = Status.DOWN := by
  refine ⟨?_, by decide, by decide, by decide, by decide⟩
  intro c l
  cases c with
  | none => simp [classify]
  | some cv =>
    cases l with
    | none => simp [classify]
    | some lv =>
      simp only [classify, SLOW_THRESHOLD_MS]
      by_cases hP : cv ≥ 500 ∨ lv > 4000
      · simp only [hP, if_true]
        refine ⟨by simp, ?_, ?_⟩
        · simp
          omega
        · simp
          omega
      · simp only [hP, if_false]
        refine ⟨by simp, ?_, ?_⟩
        · simp
          omega
        · simp
          omega

/-- C2: the per-endpoint history deque never exceeds the capacity
`HISTORY_ENTRIES`, and appending `HISTORY_ENTRIES + 1` samples to an
empty history leaves exactly `HISTORY_ENTRIES` samples with the oldest
one evicted first (the result is the input sequence minus its head, in
chronological order). -/
theorem history_capacity_fifo (xs es : List Entry)
    (h : xs.length ≤ HISTORY_ENTRIES) :
    (es.foldl (dequeAppend HISTORY_ENTRIES) xs).length ≤ HISTORY_ENTRIES
    ∧ (xs = [] → es.length = HISTORY_ENTRIES + 1 →
        (es.foldl (dequeAppend HISTORY_ENTRIES) xs = es.drop 1
         ∧ (es.foldl (dequeAppend HISTORY_ENTRIES) xs).length
             = HISTORY_ENTRIES)) := by
  have hfold := foldl_dequeAppend_of_le HISTORY_ENTRIES es xs h
  constructor
  · rw [hfold, length_takeLast]
    omega
  · intro hxs hlen
    subst hxs
    simp only [List.nil_append] at hfold
    have hdrop : takeLast HISTORY_ENTRIES es = es.drop 1 := by
      unfold takeLast
      rw [hlen]
      have h1 : HISTORY_ENTRIES + 1 - HISTORY_ENTRIES = 1 := by omega
      rw [h1]
    refine ⟨by rw [hfold, hdrop], ?_⟩
    rw [hfold, length_takeLast, hlen]
    omega

/-- Witness for C2: a concrete run of 289 samples through the deque
leaves the last 288 of them. -/
theorem history_capacity_fifo_witness :
    overfullSamples.foldl (dequeAppend HISTORY_ENTRIES) []
        = overfullSamples.drop 1
    ∧ (overfullSamples.foldl (dequeAppend HISTORY_ENTRIES) []).length
        = HISTORY_ENTRIES := by
  have hlen : overfullSamples.length = HISTORY_ENTRIES + 1 := by
    unfold overfullSamples
    rw [List.length_map, List.length_range]
  exact (history_capacity_fifo [] overfullSamples (by decide)).2 rfl hlen

/-- C3: the alert fires iff the current classification is `SLOW` or
`DOWN` and differs from the previous one; consequently the run
`[OK, DOWN, DOWN, DOWN, OK, DOWN]`, with each tick's previous being the
prior tick's current, fires exactly twice, on ticks 2 and 6, whatever
the previous classification of the first tick was. -/
theorem alert_decider_spec :
    (∀ p c : Status, alertFires p c = true ↔
        ((c = Status.SLOW ∨ c = Status.DOWN) ∧ c ≠ p))
    ∧ (∀ p0 : Status,
        runFires p0
            [Status.OK, Status.DOWN, Status.DOWN, Status.DOWN, Status.OK,
             Status.DOWN]
          = [false, true, false, false, false, true])
    ∧ (∀ p0 : Status,
        (runFires p0
            [Status.OK, Status.DOWN, Status.DOWN, Status.DOWN, Status.OK,
             Status.DOWN]).count true = 2) :=
  ⟨by decide, by decide, by decide⟩

/-! Section: Claim theorems: first-tick previous classification -/

/-- Counterexample to C5: on an empty history the previous classification
computed by `classify(_last_status(history[name]))` is `DOWN`, which does
match the real state `DOWN`, so it is not a classification that never
matches any real current state. -/
theorem first_tick_prev_matches_down :
    ¬ (∀ current : Status,
        classify (lastStatus ([] : List Entry)).1
          (lastStatus ([] : List Entry)).2 ≠ current) :=
  fun h => h Status.DOWN (by decide)

/-- C5 as amended: on an empty history the previous classification is
`DOWN`; it differs from a current classification of `OK` or `SLOW`, but
coincides with a current classification of `DOWN` (which is exactly why
no alert fires on a first-tick `DOWN`). -/
theorem first_tick_prev_is_down :
    classify (lastStatus ([] : List Entry)).1
        (lastStatus ([] : List Entry)).2 = Status.DOWN
    ∧ classify (lastStatus ([] : List Entry)).1
        (lastStatus ([] : List Entry)).2 ≠ Status.OK
    ∧ classify (lastStatus ([] : List Entry)).1
        (lastStatus ([] : List Entry)).2 ≠ Status.SLOW := by
  decide

/-! Section: Claim theorems: latest-after-append round-trip -/

/-- Counterexample to C6: a sample with a present latency of `0` ms is
encoded by `latency or -1` as `-1` (Python falsiness), so the read
decodes it as absent: the most recently appended `(some 200, some 0)` is
read back as `(some 200, none)`. -/
theorem latest_roundtrip_cex :
    lastStatus (dequeAppend HISTORY_ENTRIES []
        ((0 : Int), pyOrInt (some 200) 0, pyOrInt (some 0) (-1)))
      = (some 200, none)
    ∧ lastStatus (dequeAppend HISTORY_ENTRIES []
        ((0 : Int), pyOrInt (some 200) 0, pyOrInt (some 0) (-1)))
      ≠ (some 200, some (0 : Int)) := by
  decide

/-- C6 as amended: reading the latest entry after an append returns
exactly the appended sample's `(code, latency)` — provided a present code
is nonzero and a present latency is neither `0` nor `-1` (the values the
`code or 0` / `latency or -1` encoding conflates with absence) — and
reading an empty history returns `(absent, absent)`. -/
theorem latest_after_append (hist : List Entry) (ts : Timestamp)
    (code latency : Option Int) (hc : code ≠ some 0)
    (hl0 : latency ≠ some 0) (hlm : latency ≠ some (-1)) :
    lastStatus (dequeAppend HISTORY_ENTRIES hist
        (ts, pyOrInt code 0, pyOrInt latency (-1)))
      = (code, latency)
    ∧ lastStatus ([] : List Entry) = (none, none) := by
  refine ⟨?_, rfl⟩
  have hlast := getLast?_dequeAppend HISTORY_ENTRIES (by decide) hist
    (ts, pyOrInt code 0, pyOrInt latency (-1))
  unfold lastStatus
  rw [hlast]
  show ((if pyOrInt code 0 = 0 then (none : Option Int)
      else some (pyOrInt code 0)),
    (if pyOrInt latency (-1) = -1 then (none : Option Int)
      else some (pyOrInt latency (-1)))) = (code, latency)
  have hcode : (if pyOrInt code 0 = 0 then (none : Option Int)
      else some (pyOrInt code 0)) = code := by
    cases code with
    | none => simp [pyOrInt]
    | some c =>
      have hc0 : c ≠ 0 := fun h => hc (by rw [h])
      simp [pyOrInt, hc0]
  have hlat : (if pyOrInt latency (-1) = -1 then (none : Option Int)
      else some (pyOrInt latency (-1))) = latency := by
    cases latency with
    | none => simp [pyOrInt]
    | some l =>
      have hl0n : l ≠ 0 := fun h => hl0 (by rw [h])
      have hlmn : l ≠ -1 := fun h => hlm (by rw [h])
      simp [pyOrInt, hl0n, hlmn]
  rw [hcode, hlat]

/-- Witness for C6 as amended: appending `(some 200, some 150)` reads
back as `(some 200, some 150)`. -/
theorem latest_after_append_witness :
    lastStatus (dequeAppend HISTORY_ENTRIES []
        ((0 : Int), pyOrInt (some 200) 0, pyOrInt (some 150) (-1)))
      = (some 200, some 150)
    ∧ lastStatus ([] : List Entry) = (none, none) :=
  latest_after_append [] 0 (some 200) (some 150) (by decide) (by decide)
    (by decide)

/-! Section: Helper lemmas about `HistMap` and the persistence fold -/

theorem HistMap.get_set_self (h : HistMap) (n : String) (v : List Entry) :
    (h.set n v).get n = some v := by
  unfold HistMap.get HistMap.set
  by_cases hm : n ∈ h.keys <;> simp [hm]

theorem HistMap.get_set_other (h : HistMap) (n m : String)
    (v : List Entry) (hne : m ≠ n) : (h.set n v).get m = h.get m := by
  unfold HistMap.get HistMap.set
  by_cases hm : n ∈ h.keys <;> simp [hm, hne]

theorem HistMap.mem_keys_set_self (h : HistMap) (n : String)
    (v : List Entry) : n ∈ (h.set n v).keys := by
  unfold HistMap.set
  by_cases hm : n ∈ h.keys <;> simp [hm]

theorem HistMap.mem_keys_set_mono (h : HistMap) (n m : String)
    (v : List Entry) (hm : m ∈ h.keys) : m ∈ (h.set n v).keys := by
  unfold HistMap.set
  by_cases hn : n ∈ h.keys <;> simp [hn, hm]

theorem load_foldl_get_untouched (data : FileData) :
    ∀ (acc : HistMap) (n : String), n ∉ data.map Prod.fst →
      (data.foldl loadStep acc).get n = acc.get n := by
  induction data with
  | nil => intro acc n _; rfl
  | cons p rest ih =>
    intro acc n hn
    simp only [List.map_cons, List.mem_cons] at hn
    push_neg at hn
    rw [List.foldl_cons, ih (loadStep acc p) n hn.2]
    exact HistMap.get_set_other acc p.1 n _ hn.1

theorem load_foldl_keys_mono (data : FileData) :
    ∀ (acc : HistMap) (m : String), m ∈ acc.keys →
      m ∈ (data.foldl loadStep acc).keys := by
  induction data with
  | nil => intro acc m hm; exact hm
  | cons p rest ih =>
    intro acc m hm
    rw [List.foldl_cons]
    exact ih (loadStep acc p) m (HistMap.mem_keys_set_mono acc p.1 m _ hm)

theorem load_foldl_mem_keys (data : FileData) :
    ∀ (acc : HistMap) (n : String) (es : List Entry), (n, es) ∈ data →
      n ∈ (data.foldl loadStep acc).keys := by
  induction data with
  | nil => intro acc n es hmem; cases hmem
  | cons p rest ih =>
    intro acc n es hmem
    rw [List.foldl_cons]
    rcases List.mem_cons.mp hmem with heq | hrest
    · subst heq
      exact load_foldl_keys_mono rest (loadStep acc (n, es)) n
        (HistMap.mem_keys_set_self acc n _)
    · exact ih (loadStep acc p) n es hrest

theorem load_foldl_get_found (data : FileData) :
    ∀ (acc : HistMap) (n : String) (es : List Entry),
      (n, es) ∈ data → (data.map Prod.fst).Nodup →
      getOrFreshDeque (acc.get n) = [] →
      (data.foldl loadStep acc).get n
        = some ((takeLast HISTORY_ENTRIES es).foldl
            (dequeAppend HISTORY_ENTRIES) []) := by
  induction data with
  | nil => intro acc n es hmem _ _; cases hmem
  | cons p rest ih =>
    intro acc n es hmem hnd hempty
    simp only [List.map_cons, List.nodup_cons] at hnd
    rw [List.foldl_cons]
    rcases List.mem_cons.mp hmem with heq | hrest
    · subst heq
      have hstep : loadStep acc (n, es)
          = acc.set n ((takeLast HISTORY_ENTRIES es).foldl
              (dequeAppend HISTORY_ENTRIES) []) := by
        unfold loadStep
        rw [hempty]
      rw [hstep]
      have hnotin : n ∉ rest.map Prod.fst := hnd.1
      rw [load_foldl_get_untouched rest _ n hnotin]
      exact HistMap.get_set_self acc n _
    · have hne : n ≠ p.1 := by
        intro heq
        exact hnd.1 (heq ▸ List.mem_map_of_mem Prod.fst hrest)
      have hget : (loadStep acc p).get n = acc.get n :=
        HistMap.get_set_other acc p.1 n _ hne
      exact ih (loadStep acc p) n es hrest hnd.2 (by rw [hget]; exact hempty)

theorem initHistory_get_empty (n : String) :
    initHistory.get n = none ∨ initHistory.get n = some [] := by
  unfold initHistory HistMap.get
  by_cases hm : n ∈ (SITES.map Prod.fst) <;> simp [hm]

/-! Section: Claim theorem: persistence round-trip -/

/-- C7: saving the history mapping to the persistence file and reloading
it into the startup state (every endpoint mapped to an empty deque)
yields, per endpoint, the saved `(timestamp, code, latency)` sequence
truncated to its last `HISTORY_ENTRIES` entries, hence exactly the saved
sequence since a deque never holds more than `HISTORY_ENTRIES` samples. -/
theorem persistence_roundtrip (h : HistMap) (init : HistMap)
    (hnd : h.keys.Nodup)
    (hinit : ∀ n, init.get n = none ∨ init.get n = some []) :
    ∀ n, n ∈ h.keys →
      ((load_history (save_history h) init).get n
          = some (takeLast HISTORY_ENTRIES (h.val n))
       ∧ ((h.val n).length ≤ HISTORY_ENTRIES →
           (load_history (save_history h) init).get n = some (h.val n))) := by
  intro n hn
  have hmem : (n, h.val n) ∈ save_history h := by
    unfold save_history
    exact List.mem_map_of_mem _ hn
  have hnames : (save_history h).map Prod.fst = h.keys := by
    unfold save_history
    rw [List.map_map]
    exact List.map_id _
  have hndnames : ((save_history h).map Prod.fst).Nodup := by
    rw [hnames]; exact hnd
  have hempty : getOrFreshDeque (init.get n) = [] := by
    rcases hinit n with h0 | h0 <;> simp [getOrFreshDeque, h0]
  have hget := load_foldl_get_found (save_history h) init n (h.val n)
    hmem hndnames hempty
  have hfold : (takeLast HISTORY_ENTRIES (h.val n)).foldl
      (dequeAppend HISTORY_ENTRIES) ([] : List Entry)
      = takeLast HISTORY_ENTRIES (h.val n) := by
    rw [foldl_dequeAppend_of_le _ _ _ (by simp), List.nil_append]
    apply takeLast_eq_self
    rw [length_takeLast]
    omega
  unfold load_history
  rw [hget, hfold]
  exact ⟨rfl, fun hlen => by rw [takeLast_eq_self hlen]⟩

/-- Witness for C7: a one-endpoint history round-trips through
save-then-load unchanged. -/
theorem persistence_roundtrip_witness :
    ((load_history
        (save_history ⟨["M-Pesa"], fun _ => [((0 : Int), 200, 150)]⟩)
        initHistory).get "M-Pesa"
      = some (takeLast HISTORY_ENTRIES [((0 : Int), 200, 150)]))
    ∧ (([((0 : Int), 200, 150)] : List Entry).length ≤ HISTORY_ENTRIES →
        (load_history
            (save_history ⟨["M-Pesa"], fun _ => [((0 : Int), 200, 150)]⟩)
            initHistory).get "M-Pesa" = some [((0 : Int), 200, 150)]) :=
  persistence_roundtrip ⟨["M-Pesa"], fun _ => [((0 : Int), 200, 150)]⟩
    initHistory (by decide) initHistory_get_empty "M-Pesa" (by decide)

/-! Section: Helper lemmas about the `check_services` loop -/

theorem serviceTick_history_other (ts : Timestamp) (now name m : String)
    (c l : Option Int) (st : SysState) (hne : m ≠ name) :
    ((serviceTick ts now name c l st).1).history.val m
      = st.history.val m := by
  unfold serviceTick HistMap.set
  simp [hne]

theorem serviceTick_alert_none_of_empty_down (ts : Timestamp)
    (now name : String) (st : SysState)
    (hempty : st.history.val name = []) :
    (serviceTick ts now name none none st).2 = none := by
  unfold serviceTick
  rw [hempty]
  simp [lastStatus, classify, alertFires]

theorem compose_some_of_fired (now name : String) (c l : Option Int)
    (hs : classify c l = Status.DOWN ∨ classify c l = Status.SLOW) :
    compose_message now name (classify c l) c l ≠ none := by
  cases c with
  | none => simp [classify, compose_message]
  | some cv =>
    cases l with
    | none => simp [classify, compose_message]
    | some lv =>
      simp only [classify]
      by_cases hP : cv ≥ 500 ∨ lv > SLOW_THRESHOLD_MS
      · simp [hP, compose_message]
      · simp only [classify, hP, if_false] at hs
        rcases hs with h0 | h0 <;> cases h0

theorem serviceTick_alert_isSome (ts : Timestamp) (now name : String)
    (c l : Option Int) (st : SysState) (m : Option String)
    (halert : (serviceTick ts now name c l st).2 = some m) :
    m ≠ none := by
  unfold serviceTick at halert
  simp only at halert
  by_cases hf : alertFires
      (classify (lastStatus (st.history.val name)).1
        (lastStatus (st.history.val name)).2) (classify c l) = true
  · rw [if_pos hf] at halert
    have hm : m = compose_message now name (classify c l) c l :=
      (Option.some.injEq _ _ ▸ halert).symm
    have hs : (classify c l = Status.DOWN ∨ classify c l = Status.SLOW) := by
      unfold alertFires at hf
      have := of_decide_eq_true hf
      tauto
    rw [hm]
    exact compose_some_of_fired now name c l hs
  · rw [if_neg hf] at halert
    cases halert

theorem check_foldl_alert_names (ts : Timestamp) (now : String)
    (meas : String → Option Int × Option Int)
    (sites : List (String × String)) :
    ∀ (acc : SysState × List (String × Option String))
      (p : String × Option String),
      p ∈ (sites.foldl (checkStep ts now meas) acc).2 →
      p ∈ acc.2 ∨ p.1 ∈ sites.map Prod.fst := by
  induction sites with
  | nil => intro acc p hp; exact Or.inl hp
  | cons s rest ih =>
    intro acc p hp
    rw [List.foldl_cons] at hp
    rcases ih (checkStep ts now meas acc s) p hp with hin | hin
    · unfold checkStep at hin
      simp only at hin
      rcases hout : (serviceTick ts now s.1 (meas s.2).1 (meas s.2).2
          acc.1).2 with _ | msg
      · rw [hout] at hin
        exact Or.inl hin
      · rw [hout] at hin
        rcases List.mem_append.mp hin with h1 | h1
        · exact Or.inl h1
        · have : p = (s.1, msg) := List.mem_singleton.mp h1
          subst this
          exact Or.inr (by simp)
    · exact Or.inr (by simp [hin])

theorem check_foldl_history_other (ts : Timestamp) (now : String)
    (meas : String → Option Int × Option Int)
    (sites : List (String × String)) :
    ∀ (acc : SysState × List (String × Option String)) (n : String),
      n ∉ sites.map Prod.fst →
      ((sites.foldl (checkStep ts now meas) acc).1).history.val n
        = acc.1.history.val n := by
  induction sites with
  | nil => intro acc n _; rfl
  | cons s rest ih =>
    intro acc n hn
    simp only [List.map_cons, List.mem_cons] at hn
    push_neg at hn
    rw [List.foldl_cons, ih (checkStep ts now meas acc s) n hn.2]
    exact serviceTick_history_other ts now s.1 n _ _ acc.1 hn.1

theorem check_foldl_alert_messages (ts : Timestamp) (now : String)
    (meas : String → Option Int × Option Int)
    (sites : List (String × String)) :
    ∀ (acc : SysState × List (String × Option String)),
      (∀ p ∈ acc.2, p.2 ≠ (none : Option String)) →
      ∀ p ∈ (sites.foldl (checkStep ts now meas) acc).2,
        p.2 ≠ (none : Option String) := by
  induction sites with
  | nil => intro acc hacc p hp; exact hacc p hp
  | cons s rest ih =>
    intro acc hacc
    rw [List.foldl_cons]
    apply ih
    intro p hp
    unfold checkStep at hp
    simp only at hp
    rcases hout : (serviceTick ts now s.1 (meas s.2).1 (meas s.2).2
        acc.1).2 with _ | msg
    · rw [hout] at hp
      exact hacc p hp
    · rw [hout] at hp
      rcases List.mem_append.mp hp with h1 | h1
      · exact hacc p h1
      · have hpm : p = (s.1, msg) := List.mem_singleton.mp h1
        subst hpm
        exact serviceTick_alert_isSome ts now s.1 (meas s.2).1 (meas s.2).2
          acc.1 msg hout

theorem check_foldl_no_alert (ts : Timestamp) (now : String)
    (meas : String → Option Int × Option Int)
    (sites : List (String × String)) :
    ∀ (acc : SysState × List (String × Option String))
      (name url : String),
      (name, url) ∈ sites → (sites.map Prod.fst).Nodup →
      meas url = (none, none) → acc.1.history.val name = [] →
      (∀ m, (name, m) ∉ acc.2) →
      ∀ m, (name, m) ∉ (sites.foldl (checkStep ts now meas) acc).2 := by
  induction sites with
  | nil => intro acc name url hmem _ _ _ _; cases hmem
  | cons s rest ih =>
    intro acc name url hmem hnd hmeas hhist hacc m
    simp only [List.map_cons, List.nodup_cons] at hnd
    rw [List.foldl_cons]
    rcases List.mem_cons.mp hmem with heq | hrest
    · have hs1 : s.1 = name := by rw [← heq]
      have hs2 : s.2 = url := by rw [← heq]
      intro hp
      rcases check_foldl_alert_names ts now meas rest
          (checkStep ts now meas acc s) (name, m) hp with hin | hin
      · unfold checkStep at hin
        simp only at hin
        have hnone : (serviceTick ts now s.1 (meas s.2).1 (meas s.2).2
            acc.1).2 = none := by
          rw [hs1, hs2, hmeas]
          exact serviceTick_alert_none_of_empty_down ts now name acc.1 hhist
        rw [hnone] at hin
        exact hacc m hin
      · rw [hs1] at hnd
        exact hnd.1 hin
    · have hne : name ≠ s.1 := by
        intro heq
        exact hnd.1 (heq ▸ List.mem_map_of_mem Prod.fst hrest)
      apply ih (checkStep ts now meas acc s) name url hrest hnd.2 hmeas
      · unfold checkStep
        simp only
        rw [serviceTick_history_other ts now s.1 name _ _ acc.1 hne]
        exact hhist
      · intro m2
        unfold checkStep
        simp only
        rcases hout : (serviceTick ts now s.1 (meas s.2).1 (meas s.2).2
            acc.1).2 with _ | msg
        · exact hacc m2
        · intro hp2
          rcases List.mem_append.mp hp2 with h1 | h1
          · exact hacc m2 h1
          · have : (name, m2) = (s.1, msg) := List.mem_singleton.mp h1
            exact hne (congrArg Prod.fst this)

/-! Section: Claim theorems: first tick, metrics, message safety, unconfigured
endpoints -/

/-- C4: for an endpoint whose history is empty, the very first tick fires
no alert when the probe fails (`measure` returns `(absent, absent)`, so
the first classification is `DOWN`): `check_services` sends no
notification for that endpoint. -/
theorem first_tick_down_no_alert (st : SysState)
    (meas : String → Option Int × Option Int) (ts : Timestamp)
    (now name url : String) (hmem : (name, url) ∈ SITES)
    (hhist : st.history.val name = [])
    (hmeas : meas url = (none, none)) :
    ∀ m, (name, m) ∉ (check_services ts now meas st).2 := by
  unfold check_services checkLoop
  exact check_foldl_no_alert ts now meas SITES (st, []) name url hmem
    (by decide) hmeas hhist (fun m h => absurd h (List.not_mem_nil _))

/-- Witness for C4: on the very first tick with every probe failing, no
notification is sent for the first configured endpoint. -/
theorem first_tick_down_no_alert_witness :
    ("KRA iTax", (none : Option String))
      ∉ (check_services 0 "" (fun _ => (none, none))
          ⟨initHistory, initMetrics⟩).2 :=
  first_tick_down_no_alert ⟨initHistory, initMetrics⟩
    (fun _ => (none, none)) 0 "" "KRA iTax" "https://itax.kra.go.ke"
    (by decide) rfl rfl none

/-- Counterexample to C8: the latency gauge for a label is never removed,
so after a tick whose latency is unavailable the previously set value is
still exported. Concretely: a tick with latency 100 followed by a failed
probe (latency absent) leaves `service_latency_ms` present with the stale
value 100, instead of absent. -/
theorem metrics_stale_latency_cex :
    ((((serviceTick 1 "" "KRA iTax" none none
        ((serviceTick 0 "" "KRA iTax" (some 200) (some 100)
          ⟨initHistory, initMetrics⟩).1)).1).metrics.latency "KRA iTax")
        = some 100)
    ∧ ((((serviceTick 1 "" "KRA iTax" none none
        ((serviceTick 0 "" "KRA iTax" (some 200) (some 100)
          ⟨initHistory, initMetrics⟩).1)).1).metrics.latency "KRA iTax")
        ≠ none)
    ∧ ((((serviceTick 1 "" "KRA iTax" none none
        ((serviceTick 0 "" "KRA iTax" (some 200) (some 100)
          ⟨initHistory, initMetrics⟩).1)).1).metrics.up "KRA iTax")
        = some 0) := by
  decide

/-- C8 as amended: after each tick, `service_up{service=name}` equals 1
iff the current classification is `OK` (else 0); `service_latency_ms` is
set to the tick's latency when present, and on a tick whose latency is
unavailable it is left as it was — absent only if latency was never
present for that endpoint (it holds the previous value otherwise). -/
theorem metrics_export (st : SysState) (ts : Timestamp)
    (now name : String) (code latency : Option Int) :
    (((serviceTick ts now name code latency st).1).metrics.up name
        = some (if classify code latency = Status.OK then 1 else 0))
    ∧ (∀ l, latency = some l →
        ((serviceTick ts now name code latency st).1).metrics.latency name
          = some l)
    ∧ (latency = none →
        ((serviceTick ts now name code latency st).1).metrics.latency name
          = st.metrics.latency name) := by
  refine ⟨?_, ?_, ?_⟩
  · unfold serviceTick
    simp
  · intro l hl
    subst hl
    unfold serviceTick
    simp
  · intro hl
    subst hl
    unfold serviceTick
    simp

/-- Witness for C8 as amended: a tick with classification `OK` and
latency 100 exports `up = 1` and `latency = 100`. -/
theorem metrics_export_witness :
    (((serviceTick 0 "" "KRA iTax" (some 200) (some 100)
        ⟨initHistory, initMetrics⟩).1).metrics.up "KRA iTax"
      = some (if classify (some 200) (some 100) = Status.OK then 1 else 0))
    ∧ (((serviceTick 0 "" "KRA iTax" (some 200) (some 100)
        ⟨initHistory, initMetrics⟩).1).metrics.latency "KRA iTax"
      = some 100) :=
  ⟨(metrics_export ⟨initHistory, initMetrics⟩ 0 "" "KRA iTax"
      (some 200) (some 100)).1,
   (metrics_export ⟨initHistory, initMetrics⟩ 0 "" "KRA iTax"
      (some 200) (some 100)).2.1 100 rfl⟩

/-- C9: `classify` returns `SLOW` only when both code and latency are
present, so the `SLOW` branch of `compose_message` (which divides the
latency by 1000) is always well defined when reached from
`check_services`: no alert ever carries the undefined-message marker. -/
theorem slow_message_welldefined :
    (∀ c l : Option Int, classify c l = Status.SLOW →
        c ≠ none ∧ l ≠ none)
    ∧ (∀ (ts : Timestamp) (now : String)
        (meas : String → Option Int × Option Int) (st : SysState),
        ∀ p ∈ (check_services ts now meas st).2,
          p.2 ≠ (none : Option String)) := by
  constructor
  · intro c l hs
    cases c with
    | none =>
      cases l with
      | none => simp [classify] at hs
      | some lv => simp [classify] at hs
    | some cv =>
      cases l with
      | none => simp [classify] at hs
      | some lv => exact ⟨fun h => Option.noConfusion h,
          fun h => Option.noConfusion h⟩
  · intro ts now meas st p hp
    unfold check_services checkLoop at hp
    exact check_foldl_alert_messages ts now meas SITES (st, [])
      (fun q hq => absurd hq (List.not_mem_nil _)) p hp

/-- Witness for C9: a tick that fires a `SLOW` alert (HTTP 503, 4500 ms)
produces a fully formatted message. -/
theorem slow_message_welldefined_witness :
    ((some 503 : Option Int) ≠ none ∧ (some 4500 : Option Int) ≠ none)
    ∧ ((("KRA iTax",
        some "KRA iTax is *slow* (4s, HTTP 503) - \nHang tight or try off-peak")
          : String × Option String).2 ≠ (none : Option String)) :=
  ⟨slow_message_welldefined.1 (some 503) (some 4500) (by decide),
   slow_message_welldefined.2 0 "" (fun _ => (some 503, some 4500))
     ⟨initHistory, initMetrics⟩
     ("KRA iTax",
       some "KRA iTax is *slow* (4s, HTTP 503) - \nHang tight or try off-peak")
     (by decide)⟩

/-- C10: loading the persistence file inserts every endpoint name found
in the file into the history mapping, even names outside the configured
site set; the dashboard then lists such an endpoint, while
`check_services` neither touches its history nor ever alerts for it. -/
theorem load_inserts_unconfigured (data : FileData) (init : HistMap)
    (n : String) (es : List Entry) (hmem : (n, es) ∈ data) :
    n ∈ (load_history data init).keys
    ∧ (∃ row ∈ dashboard (load_history data init), row.name = n)
    ∧ (n ∉ SITES.map Prod.fst →
        ∀ (ts : Timestamp) (now : String)
          (meas : String → Option Int × Option Int) (st : SysState),
          ((check_services ts now meas st).1).history.val n
              = st.history.val n
          ∧ ∀ m, (n, m) ∉ (check_services ts now meas st).2) := by
  have hkey : n ∈ (load_history data init).keys := by
    unfold load_history
    exact load_foldl_mem_keys data init n es hmem
  refine ⟨hkey, ?_, ?_⟩
  · unfold dashboard
    have hrow : (⟨n, (lastStatus ((load_history data init).val n)).1,
        (lastStatus ((load_history data init).val n)).2,
        classify (lastStatus ((load_history data init).val n)).1
          (lastStatus ((load_history data init).val n)).2⟩ : DashRow)
        ∈ (load_history data init).keys.map (fun k =>
            let s := lastStatus ((load_history data init).val k)
            (⟨k, s.1, s.2, classify s.1 s.2⟩ : DashRow)) :=
      List.mem_map_of_mem _ hkey
    refine ⟨⟨n, (lastStatus ((load_history data init).val n)).1,
        (lastStatus ((load_history data init).val n)).2,
        classify (lastStatus ((load_history data init).val n)).1
          (lastStatus ((load_history data init).val n)).2⟩, ?_, rfl⟩
    rw [(List.mergeSort_perm _ _).mem_iff]
    exact hrow
  · intro hout ts now meas st
    constructor
    · unfold check_services checkLoop
      exact check_foldl_history_other ts now meas SITES (st, []) n hout
    · intro m hp
      unfold check_services checkLoop at hp
      rcases check_foldl_alert_names ts now meas SITES (st, []) (n, m) hp
        with hin | hin
      · exact List.not_mem_nil _ hin
      · exact hout hin

/-- Witness for C10: a file entry for the unconfigured name `M-Pesa` is
inserted, listed by the dashboard, and never probed or alerted on. -/
theorem load_inserts_unconfigured_witness :
    "M-Pesa" ∈ (load_history [("M-Pesa", [])] initHistory).keys
    ∧ (∃ row ∈ dashboard (load_history [("M-Pesa", [])] initHistory),
        row.name = "M-Pesa")
    ∧ ("M-Pesa" ∉ SITES.map Prod.fst →
        ∀ (ts : Timestamp) (now : String)
          (meas : String → Option Int × Option Int) (st : SysState),
          ((check_services ts now meas st).1).history.val "M-Pesa"
              = st.history.val "M-Pesa"
          ∧ ∀ m, ("M-Pesa", m) ∉ (check_services ts now meas st).2) :=
  load_inserts_unconfigured [("M-Pesa", [])] initHistory "M-Pesa" []
    (by decide)

end HudumaWatch
